import Mathlib

/-!
Verification of the vibe-kanban Container Service core
(`crates/services/src/services/container.rs` and
`crates/services/src/services/execution_process.rs`) against its
natural-language specification.

The Rust code is shallowly embedded: pure functions become Lean functions,
the effectful operations become explicit state passing / effect traces.
Collaborator code living outside the sampled files (the executors, db and
utils crates) is modelled from the specification and marked as such in the
doc comments.
-/

namespace VibeKanban

/-! ## Data model: script requests and executor actions -/

/-- `ScriptContext` from `executors::actions::script` (spec §3). -/
inductive ScriptContext where
  | setupScript
  | cleanupScript
  | archiveScript
  deriving DecidableEq

/-- `ScriptRequestLanguage` from `executors::actions::script`; only `Bash` is
used by the container service. -/
inductive ScriptRequestLanguage where
  | bash
  deriving DecidableEq

/-- `ScriptRequest` from `executors::actions::script` (spec §3). -/
structure ScriptRequest where
  script : String
  language : ScriptRequestLanguage
  context : ScriptContext
  working_dir : Option String
  deriving DecidableEq

/-- `CodingAgentInitialRequest`; the executor configuration is abstracted to
an opaque string, the container service never inspects it. -/
structure CodingAgentInitialRequest where
  prompt : String
  executor_config : String
  working_dir : Option String
  deriving DecidableEq

/-- `ExecutorActionType` from `executors::actions` (spec §3): the typed
request carried by one action node. -/
inductive ExecutorActionType where
  | scriptRequest (req : ScriptRequest)
  | codingAgentInitialRequest (req : CodingAgentInitialRequest)
  | codingAgentFollowUpRequest (prompt : String)
  | reviewRequest (prompt : String)
  deriving DecidableEq

/-- `ExecutorAction` (spec §3): a typed request plus an optional boxed
`next_action`, i.e. a nonempty right-leaning chain. -/
inductive ExecutorAction where
  | mk (typ : ExecutorActionType) (next_action : Option ExecutorAction)

/-- Equality of action chains is decidable (structural recursion on the
right spine; `deriving` cannot handle the nested `Option`). -/
def ExecutorAction.decEq : (a b : ExecutorAction) → Decidable (a = b)
  | .mk t₁ none, .mk t₂ none =>
      if h : t₁ = t₂ then .isTrue (by rw [h])
      else .isFalse (fun he => by injection he with h1 h2; exact h h1)
  | .mk _ none, .mk _ (some _) =>
      .isFalse (fun he => by injection he with h1 h2; exact Option.noConfusion h2)
  | .mk _ (some _), .mk _ none =>
      .isFalse (fun he => by injection he with h1 h2; exact Option.noConfusion h2)
  | .mk t₁ (some a), .mk t₂ (some b) =>
      if h : t₁ = t₂ then
        match ExecutorAction.decEq a b with
        | .isTrue he => .isTrue (by rw [h, he])
        | .isFalse he => .isFalse (fun hh => by
            injection hh with h1 h2
            exact he (Option.some.inj h2))
      else .isFalse (fun he => by injection he with h1 h2; exact h h1)

instance : DecidableEq ExecutorAction := ExecutorAction.decEq

/-- Accessor matching `ExecutorAction::typ()`. -/
def ExecutorAction.typ : ExecutorAction → ExecutorActionType
  | .mk t _ => t

/-- Accessor matching `ExecutorAction::next_action()`. -/
def ExecutorAction.next_action : ExecutorAction → Option ExecutorAction
  | .mk _ n => n

/-- Modelled from the spec: `ExecutorAction::append_action(child)` lives in the
executors crate (not among the sampled files); spec §4.1 says it "attaches
`child` at the deepest `next_action == None` node (right-spine append)". -/
def ExecutorAction.append_action : ExecutorAction → ExecutorAction → ExecutorAction
  | .mk t none, child => .mk t (some child)
  | .mk t (some n), child => .mk t (some (n.append_action child))

/-- The list of node types along the right spine of an action chain, root
first.  Used to state chain-shape properties. -/
def ExecutorAction.chain_types : ExecutorAction → List ExecutorActionType
  | .mk t none => [t]
  | .mk t (some n) => t :: n.chain_types

/-! ## Data model: repos, processes, workspaces -/

/-- `Repo` rows (spec §3); only the fields the container service reads. -/
structure Repo where
  id : Nat
  name : String
  path : String
  setup_script : Option String
  cleanup_script : Option String
  archive_script : Option String
  parallel_setup_script : Bool
  deriving DecidableEq

/-- `ExecutionProcessStatus` (spec §3). -/
inductive ExecutionProcessStatus where
  | running
  | completed
  | failed
  | killed
  deriving DecidableEq

/-- `ExecutionProcessRunReason` (spec §3). -/
inductive ExecutionProcessRunReason where
  | setupScript
  | codingAgent
  | cleanupScript
  | archiveScript
  | devServer
  deriving DecidableEq

/-- The fields of an `ExecutionProcess` row that the pure lifecycle
decisions read (`executor_action()` is the parsed action tree). -/
structure ExecutionProcess where
  id : Nat
  session_id : Nat
  created_at : Nat
  status : ExecutionProcessStatus
  run_reason : ExecutionProcessRunReason
  executor_action : ExecutorAction
  deriving DecidableEq

/-- `Workspace` rows (spec §3); fields used by the embedded operations. -/
structure Workspace where
  id : Nat
  name : Option String
  branch : String
  agent_working_dir : Option String
  archived : Bool
  deriving DecidableEq

/-- `Session` rows (spec §3). -/
structure Session where
  id : Nat
  workspace_id : Nat
  deriving DecidableEq

/-- `ExecutionContext` as loaded by `ExecutionProcess::load_context`:
the process together with its session and workspace. -/
structure ExecutionContext where
  execution_process : ExecutionProcess
  session : Session
  workspace : Workspace
  deriving DecidableEq

/-! ## should_finalize (container.rs lines 184-215) -/

/-- `ContainerService::should_finalize`, translated clause for clause from
container.rs: never for DevServer; never for a SetupScript leaf; always for
Failed/Killed; otherwise iff `next_action` is `None`. -/
def should_finalize (ctx : ExecutionContext) : Bool :=
  if ctx.execution_process.run_reason = .devServer then
    false
  else
    let action := ctx.execution_process.executor_action
    if ctx.execution_process.run_reason = .setupScript ∧ action.next_action = none then
      false
    else if ctx.execution_process.status = .failed ∨ ctx.execution_process.status = .killed then
      true
    else
      action.next_action.isNone

/-- The truth table of spec §4.2, written directly from the spec's words:
`false` if DevServer; `false` if SetupScript with no next action; `true` if
Failed or Killed; otherwise `true` iff next action is None. -/
def should_finalize_spec (run_reason : ExecutionProcessRunReason)
    (status : ExecutionProcessStatus) (next_is_none : Bool) : Bool :=
  if run_reason = .devServer then false
  else if run_reason = .setupScript ∧ next_is_none then false
  else if status = .failed ∨ status = .killed then true
  else next_is_none

/-! ## try_start_next_action (container.rs lines 1239-1272) -/

/-- The `next_run_reason` match of `try_start_next_action`, translated
arm for arm from container.rs lines 1249-1265. -/
def next_run_reason : ExecutorActionType → ExecutorActionType → ExecutionProcessRunReason
  | .scriptRequest _, .scriptRequest _ => .setupScript
  | .codingAgentInitialRequest _, .scriptRequest _ => .cleanupScript
  | .codingAgentFollowUpRequest _, .scriptRequest _ => .cleanupScript
  | .reviewRequest _, .scriptRequest _ => .cleanupScript
  | _, .codingAgentFollowUpRequest _ => .codingAgent
  | _, .codingAgentInitialRequest _ => .codingAgent
  | _, .reviewRequest _ => .codingAgent

/-- One `start_execution` invocation: the action started and its run reason. -/
structure StartCall where
  action : ExecutorAction
  run_reason : ExecutionProcessRunReason
  deriving DecidableEq

/-- `try_start_next_action`: returns the `start_execution` call it performs,
or `none` when the process's action has no `next_action`. -/
def try_start_next_action (ctx : ExecutionContext) : Option StartCall :=
  match ctx.execution_process.executor_action.next_action with
  | none => none
  | some next =>
      some ⟨next, next_run_reason ctx.execution_process.executor_action.typ next.typ⟩

/-- Spec §4.2's `next_run_reason` table, written from the spec's words:
Script→Script is SetupScript, Agent/Review→Script is CleanupScript,
anything→Agent/Review is CodingAgent. -/
def next_run_reason_spec (cur next : ExecutorActionType) : ExecutionProcessRunReason :=
  let is_script : ExecutorActionType → Bool := fun t =>
    match t with | .scriptRequest _ => true | _ => false
  if is_script cur ∧ is_script next then .setupScript
  else if is_script next then .cleanupScript
  else .codingAgent

/-! ## Action builders (container.rs lines 384-605) -/

/-- `cleanup_actions_for_repos`: right-leaning chain of cleanup
`ScriptRequest`s over the repos that have a cleanup script, in repo order,
built with `append_action` exactly as in container.rs lines 384-419. -/
def cleanup_actions_for_repos (repos : List Repo) : Option ExecutorAction :=
  let repos_with_cleanup := repos.filter fun r => r.cleanup_script.isSome
  match repos_with_cleanup with
  | [] => none
  | first :: rest =>
      let root := ExecutorAction.mk
        (.scriptRequest { script := first.cleanup_script.getD "", language := .bash,
                          context := .cleanupScript, working_dir := some first.name }) none
      some (rest.foldl
        (fun acc r => acc.append_action (ExecutorAction.mk
          (.scriptRequest { script := r.cleanup_script.getD "", language := .bash,
                            context := .cleanupScript, working_dir := some r.name }) none))
        root)

/-- `archive_actions_for_repos` (container.rs lines 421-456): same shape as
the cleanup chain, over the repos that have an archive script. -/
def archive_actions_for_repos (repos : List Repo) : Option ExecutorAction :=
  let repos_with_archive := repos.filter fun r => r.archive_script.isSome
  match repos_with_archive with
  | [] => none
  | first :: rest =>
      let root := ExecutorAction.mk
        (.scriptRequest { script := first.archive_script.getD "", language := .bash,
                          context := .archiveScript, working_dir := some first.name }) none
      some (rest.foldl
        (fun acc r => acc.append_action (ExecutorAction.mk
          (.scriptRequest { script := r.archive_script.getD "", language := .bash,
                            context := .archiveScript, working_dir := some r.name }) none))
        root)

/-- `setup_action_for_repo` (container.rs lines 572-584): the single, leaf
setup `ScriptRequest` for one repo, used in parallel mode. -/
def setup_action_for_repo (repo : Repo) : Option ExecutorAction :=
  repo.setup_script.map fun script =>
    ExecutorAction.mk
      (.scriptRequest { script, language := .bash,
                        context := .setupScript, working_dir := some repo.name }) none

/-- `build_sequential_setup_chain` (container.rs lines 586-605): prepend one
setup node per repo (reverse iteration, so the chain lists repos in order)
in front of `next_action`. -/
def build_sequential_setup_chain (repos : List Repo) (next_action : ExecutorAction) :
    ExecutorAction :=
  repos.reverse.foldl
    (fun chained repo =>
      match repo.setup_script with
      | some script =>
          ExecutorAction.mk
            (.scriptRequest { script, language := .bash,
                              context := .setupScript, working_dir := some repo.name })
            (some chained)
      | none => chained)
    next_action

/-! ## start_workspace (container.rs lines 961-1044) -/

/-- The `start_execution` calls that succeed during `start_workspace`
(container.rs lines 987-1041).  `setupOk r` tells whether the parallel
setup `start_execution` for repo `r` succeeded: in the source a failure
there is only logged (`tracing::warn`) and the loop continues, so the
coding-agent start is attempted regardless.  The final coding-agent (resp.
sequential chain) start is the one whose error would propagate, so the
list describes the successful-return case. -/
def start_workspace_started (workspace : Workspace) (repos : List Repo)
    (executor_config : String) (prompt : String) (setupOk : Repo → Bool) : List StartCall :=
  let repos_with_setup := repos.filter fun r => r.setup_script.isSome
  let all_parallel := repos_with_setup.all fun r => r.parallel_setup_script
  let cleanup_action := cleanup_actions_for_repos repos
  let working_dir := Option.filter (fun d => d ≠ "") workspace.agent_working_dir
  let coding_action := ExecutorAction.mk
    (.codingAgentInitialRequest { prompt, executor_config, working_dir }) cleanup_action
  if all_parallel then
    (repos_with_setup.filterMap fun r =>
      if setupOk r then
        (setup_action_for_repo r).map fun a => StartCall.mk a .setupScript
      else none)
    ++ [⟨coding_action, .codingAgent⟩]
  else
    [⟨build_sequential_setup_chain repos_with_setup coding_action, .setupScript⟩]

/-! ## start_execution side effects on the archived flag (lines 1093-1095) -/

/-- The workspace `archived` flag after `start_execution` commits the process
row: container.rs lines 1093-1095 clear the flag for every run reason other
than `ArchiveScript`. -/
def start_execution_archived_after (run_reason : ExecutionProcessRunReason)
    (archived : Bool) : Bool :=
  if run_reason ≠ .archiveScript then false else archived

/-- `archive_workspace` (container.rs line 505) begins by writing
`archived = true` on the workspace row. -/
def archive_workspace_archived_flag : Bool := true

/-! ## Log messages and the start_execution failure path -/

/-- `NormalizedEntryError::SetupRequired` (executors crate, spec §4.2/S6). -/
inductive NormalizedEntryError where
  | setupRequired
  deriving DecidableEq

/-- The normalized-entry kinds the container service constructs. -/
inductive NormalizedEntryType where
  | errorMessage (error_type : NormalizedEntryError)
  deriving DecidableEq

/-- A normalized conversation entry (fields the container service sets). -/
structure NormalizedEntry where
  entry_type : NormalizedEntryType
  content : String
  deriving DecidableEq

/-- Modelled from the spec: `ConversationPatch::add_normalized_entry(i, e)`
(executors crate) builds a JSON patch adding entry `e` at conversation
index `i`; we keep the pair itself. -/
structure ConversationPatch where
  index : Nat
  entry : NormalizedEntry
  deriving DecidableEq

/-- `LogMsg` (utils crate, spec §3).  The only `JsonPatch` payloads the
embedded operations construct are conversation patches, so the patch type is
specialized to those. -/
inductive LogMsg where
  | stdout (s : String)
  | stderr (s : String)
  | jsonPatch (p : ConversationPatch)
  | sessionId (s : String)
  | messageId (s : String)
  | ready
  | finished
  deriving DecidableEq

/-- `Stdout`/`Stderr` — the replayable raw messages. -/
def LogMsg.is_raw : LogMsg → Bool
  | .stdout _ => true
  | .stderr _ => true
  | _ => false

/-- Whether the message is the terminal `Finished` marker. -/
def LogMsg.is_finished : LogMsg → Bool
  | .finished => true
  | _ => false

/-- `ExecutorError` with its distinguished `ExecutableNotFound` variant
(spec §7); `display` models its `Display` impl (executors crate, exact
wording not among the sampled files). -/
inductive ExecutorErrorM where
  | executableNotFound (program : String)
  | otherExecutor (msg : String)
  deriving DecidableEq

def ExecutorErrorM.display : ExecutorErrorM → String
  | .executableNotFound program => "Executable not found: " ++ program
  | .otherExecutor msg => msg

/-- `ContainerError` restricted to the variants the failure path of
`start_execution` distinguishes (spec §7). -/
inductive ContainerErrorM where
  | executorError (e : ExecutorErrorM)
  | otherError (msg : String)
  deriving DecidableEq

def ContainerErrorM.display : ContainerErrorM → String
  | .executorError e => e.display
  | .otherError msg => msg

/-- Database / log-file effects of the `start_execution` failure branch. -/
inductive StartExecutionEffect where
  | markProcessFailed
  | appendLog (msg : LogMsg)
  deriving DecidableEq

/-- container.rs lines 1124-1188: given the result of
`start_execution_inner`, the effects `start_execution` performs and the
value it returns.  On an inner error: mark the process `Failed`, append a
`Stderr` line `"Failed to start execution: <err>"`, and if the error is
`ExecutorError::ExecutableNotFound` also append the `JsonPatch` with a
`SetupRequired` error entry at conversation index 2; then return the
original error. -/
def start_execution_on_inner_result (inner : Except ContainerErrorM Unit) :
    Except ContainerErrorM Unit × List StartExecutionEffect :=
  match inner with
  | .ok () => (.ok (), [])
  | .error start_error =>
      let base := [StartExecutionEffect.markProcessFailed,
        StartExecutionEffect.appendLog
          (.stderr ("Failed to start execution: " ++ start_error.display))]
      let extra :=
        match start_error with
        | .executorError (.executableNotFound program) =>
            [StartExecutionEffect.appendLog (.jsonPatch
              ⟨2, ⟨.errorMessage .setupRequired,
                   "The required executable `" ++ program ++ "` is not installed."⟩⟩)]
        | _ => []
      (.error start_error, base ++ extra)

/-! ## Log drain task (execution_process.rs lines 270-363) -/

/-- The externally visible effects of the `spawn_stream_raw_logs_to_storage`
drain loop. -/
inductive DrainEffect where
  | fileLine (line : String)
  | setAgentSessionId (s : String)
  | setAgentMessageId (s : String)
  deriving DecidableEq

/-- The drain loop of `spawn_stream_raw_logs_to_storage`
(execution_process.rs lines 296-360) over the message sequence delivered by
`history_plus_stream` (modelled from the spec §4.4 as the pushed messages in
push order): `Stdout`/`Stderr` are serialized (`ser`) and appended as one
newline-terminated line; `SessionId`/`MessageId` update the coding-agent
turn; `Finished` breaks the loop; `JsonPatch`/`Ready` are skipped. -/
def drain_raw_logs (ser : LogMsg → String) : List LogMsg → List DrainEffect
  | [] => []
  | msg :: rest =>
      match msg with
      | .stdout _ => .fileLine (ser msg ++ "\n") :: drain_raw_logs ser rest
      | .stderr _ => .fileLine (ser msg ++ "\n") :: drain_raw_logs ser rest
      | .sessionId s => .setAgentSessionId s :: drain_raw_logs ser rest
      | .messageId s => .setAgentMessageId s :: drain_raw_logs ser rest
      | .finished => []
      | .jsonPatch _ => drain_raw_logs ser rest
      | .ready => drain_raw_logs ser rest

/-- Project the lines appended to the log file out of the drain effects. -/
def DrainEffect.file_line : DrainEffect → Option String
  | .fileLine l => some l
  | _ => none

/-- The content of the on-disk log file after the drain task finished: the
appended lines, in order. -/
def drain_file_lines (ser : LogMsg → String) (msgs : List LogMsg) : List String :=
  (drain_raw_logs ser msgs).filterMap DrainEffect.file_line

/-! ## Raw log replay (container.rs lines 772-803) -/

/-- The live branch of `stream_raw_logs`: `history_plus_stream` filtered to
`Stdout`, `Stderr` and `Finished` (container.rs lines 776-788). -/
def stream_raw_logs_live (history : List LogMsg) : List LogMsg :=
  history.filter fun m =>
    match m with
    | .stdout _ => true
    | .stderr _ => true
    | .finished => true
    | _ => false

/-- The disk branch of `stream_raw_logs`: the messages loaded by
`load_raw_log_messages`, filtered to `Stdout`/`Stderr`, followed by a
synthetic `Finished` (container.rs lines 789-802). -/
def stream_raw_logs_disk (messages : List LogMsg) : List LogMsg :=
  (messages.filter fun m => m.is_raw) ++ [.finished]

/-- Modelled from the spec: `parse_log_jsonl_lossy` (utils crate, spec §7)
parses each line of the log file and skips malformed lines. -/
def parse_file_lines (parse : String → Option LogMsg) (lines : List String) : List LogMsg :=
  lines.filterMap parse

/-! ## Log migration (execution_process.rs lines 30-196) -/

/-- One row of the legacy `execution_process_logs` table: owning session,
execution, and one stored log line (db crate; the migration streams rows
"ordered as stored", spec §4.5). -/
structure LegacyLogRow where
  session_id : Nat
  execution_id : Nat
  line : String
  deriving DecidableEq

/-- The state the migration touches: the legacy table and the per-pair log
files, keyed by `(session_id, execution_id)` (the path
`logs/<session_id>/<execution_id>.jsonl`), each holding its list of lines. -/
structure MigrationState where
  legacy : List LegacyLogRow
  files : List ((Nat × Nat) × List String)
  deriving DecidableEq

/-- Look up a log file by its `(session_id, execution_id)` key. -/
def file_lookup (files : List ((Nat × Nat) × List String)) (k : Nat × Nat) :
    Option (List String) :=
  (files.find? fun e => e.1 = k).map fun e => e.2

/-- The distinct `(session_id, execution_id)` pairs of the legacy table
(`ExecutionProcessLogs::stream_distinct_processes`, db crate), in first-
occurrence order. -/
def distinct_pairs (rows : List LegacyLogRow) : List (Nat × Nat) :=
  rows.foldl
    (fun acc r =>
      if (r.session_id, r.execution_id) ∈ acc then acc
      else acc ++ [(r.session_id, r.execution_id)])
    []

/-- execution_process.rs lines 113-116: a stored line gets a trailing
newline if it lacks one. -/
def ensure_newline (s : String) : String :=
  if s.endsWith "\n" then s else s ++ "\n"

/-- The lines `ExecutionProcessLogs::stream_log_lines_by_execution_id`
yields for one pair (selected by `execution_id`, execution_process.rs
line 108), newline-normalized. -/
def migration_lines (legacy : List LegacyLogRow) (p : Nat × Nat) : List String :=
  (legacy.filter fun r => r.execution_id = p.2).map fun r => ensure_newline r.line

/-- `migrate_execution_logs_to_files` (execution_process.rs lines 30-196):
return unchanged if the legacy table is empty; otherwise for each distinct
pair, skip it when its destination file exists, else write the pair's rows
(selected by `execution_id`, newline-normalized) as the new file; finally
delete all legacy rows.  The spinner/VACUUM bookkeeping has no effect on
this state; the up-to-64-pairs concurrency touches disjoint files, so the
fold is a faithful serialization. -/
def migrate_execution_logs_to_files (s : MigrationState) : MigrationState :=
  if s.legacy.isEmpty then s
  else
    let pairs := distinct_pairs s.legacy
    let files := pairs.foldl
      (fun fs p =>
        if (file_lookup fs p).isSome then fs
        else
          let lines := migration_lines s.legacy p
          if lines.isEmpty then fs
          else fs ++ [(p, lines)])
      s.files
    { legacy := [], files := files }

/-! ## Session reset (container.rs lines 607-715) -/

/-- `ExecutionProcessRepoState` rows (spec §3). -/
structure RepoStateRow where
  process_id : Nat
  repo_id : Nat
  before_head_commit : Option String
  after_head_commit : Option String
  deriving DecidableEq

/-- The relational state `reset_session_to_process` reads and writes.
`workspace_repos` are the `(workspace_id, repo_id)` links in workspace
order. -/
structure DbState where
  workspaces : List Workspace
  sessions : List Session
  processes : List ExecutionProcess
  repo_states : List RepoStateRow
  repos : List Repo
  workspace_repos : List (Nat × Nat)
  deriving DecidableEq

/-- `WorkspaceRepo::find_repos_for_workspace` (db crate): the repos linked
to the workspace, in link order. -/
def find_repos_for_workspace (st : DbState) (workspace_id : Nat) : List Repo :=
  (st.workspace_repos.filter fun l => l.1 = workspace_id).filterMap fun l =>
    st.repos.find? fun r => r.id = l.2

/-- Modelled from the spec:
`ExecutionProcess::find_prev_after_head_commit` (db crate) — "the previous
process's `after_head_commit` for the same session and repo" (spec §4.6):
the latest earlier process in the session with a recorded after-commit for
the repo. -/
def find_prev_after_head_commit (st : DbState) (session_id : Nat)
    (target : ExecutionProcess) (repo_id : Nat) : Option String :=
  let candidates := st.processes.filterMap fun q =>
    if q.session_id = session_id ∧ q.created_at < target.created_at then
      (st.repo_states.find? fun rs => rs.process_id = q.id ∧ rs.repo_id = repo_id).bind
        fun rs => rs.after_head_commit.map fun oid => (q.created_at, oid)
    else none
  (candidates.foldl
    (fun acc c =>
      match acc with
      | none => some c
      | some a => if a.1 < c.1 then some c else some a)
    none).map Prod.snd

/-- `git::WorktreeResetOptions` (spec §6). -/
structure WorktreeResetOptions where
  perform_reset : Bool
  force_when_dirty : Bool
  is_dirty : Bool
  hard : Bool
  deriving DecidableEq

/-- One `git.reconcile_worktree_to_commit` invocation recorded by the
reset (the git layer is out of scope, spec §1). -/
structure ReconcileCall where
  repo_id : Nat
  oid : String
  opts : WorktreeResetOptions
  deriving DecidableEq

/-- `try_stop` (container.rs lines 682-715): for every session of the
workspace, kill every `Running` process, skipping dev servers unless
included.  `stop_execution` is the abstract trait method; spec §4.2 says it
transitions a `Running` process to the requested status (`Killed` here). -/
def try_stop (st : DbState) (workspace_id : Nat) (include_dev_server : Bool) : DbState :=
  { st with
    processes := st.processes.map fun p =>
      if (st.sessions.any fun s => s.id = p.session_id ∧ s.workspace_id = workspace_id)
          ∧ (include_dev_server ∨ p.run_reason ≠ .devServer)
          ∧ p.status = .running
      then { p with status := .killed }
      else p }

/-- Modelled from the spec: `ExecutionProcess::drop_at_and_after` (db
crate) — "delete `target` and every later process in the session"
(spec §4.6), i.e. every process of the session with
`created_at ≥ target.created_at` (spec §8.7a). -/
def drop_at_and_after (st : DbState) (session_id : Nat) (target : ExecutionProcess) : DbState :=
  { st with
    processes := st.processes.filter fun q =>
      ¬(q.session_id = session_id ∧ target.created_at ≤ q.created_at) }

/-- `reset_session_to_process` (container.rs lines 608-680), step for step:
load and validate the target process, resolve each repo's target oid
(`before_head_commit`, else the previous after-commit), record a reconcile
call when one exists, then `try_stop` (dev servers excluded) and
`drop_at_and_after`.  `is_dirty` abstracts the `is_container_clean` probe. -/
def reset_session_to_process (st : DbState) (session_id target_process_id : Nat)
    (perform_git_reset force_when_dirty is_dirty : Bool) :
    Except String (DbState × List ReconcileCall) :=
  match st.processes.find? fun p => p.id = target_process_id with
  | none => .error "Process not found"
  | some process =>
    if process.session_id ≠ session_id then
      .error "Process does not belong to this session"
    else
      match st.sessions.find? fun s => s.id = session_id with
      | none => .error "Session not found"
      | some session =>
        match st.workspaces.find? fun w => w.id = session.workspace_id with
        | none => .error "Workspace not found"
        | some _workspace =>
          let repos := find_repos_for_workspace st session.workspace_id
          let repo_states := st.repo_states.filter fun rs =>
            rs.process_id = target_process_id
          let reconciles := repos.filterMap fun repo =>
            let repo_state := repo_states.find? fun s => s.repo_id = repo.id
            let target_oid :=
              match repo_state.bind fun s => s.before_head_commit with
              | some oid => some oid
              | none => find_prev_after_head_commit st session_id process repo.id
            target_oid.map fun oid =>
              ReconcileCall.mk repo.id oid
                ⟨perform_git_reset, force_when_dirty, is_dirty, perform_git_reset⟩
          let stopped := try_stop st session.workspace_id false
          let final := drop_at_and_after stopped session_id process
          .ok (final, reconciles)

/-! ## Chain-shape helpers -/

/-- The node type a setup `ScriptRequest` for `r` carries (container.rs
lines 547-566 and 593-600 build exactly this request). -/
def setup_req_type (r : Repo) : ExecutorActionType :=
  .scriptRequest { script := r.setup_script.getD "", language := .bash,
                   context := .setupScript, working_dir := some r.name }

/-- The node type a cleanup `ScriptRequest` for `r` carries. -/
def cleanup_req_type (r : Repo) : ExecutorActionType :=
  .scriptRequest { script := r.cleanup_script.getD "", language := .bash,
                   context := .cleanupScript, working_dir := some r.name }

/-- The node type an archive `ScriptRequest` for `r` carries. -/
def archive_req_type (r : Repo) : ExecutorActionType :=
  .scriptRequest { script := r.archive_script.getD "", language := .bash,
                   context := .archiveScript, working_dir := some r.name }

/-- Right spine of an optional chain. -/
def opt_chain_types : Option ExecutorAction → List ExecutorActionType
  | none => []
  | some a => a.chain_types

/-! ## Witness fixtures -/

deriving instance DecidableEq for Except


/-- Concrete serializer used to instantiate the replay-equivalence theorem. -/
def ser_test : LogMsg → String
  | .stdout s => "O" ++ s
  | .stderr s => "E" ++ s
  | _ => ""

/-- Concrete parser inverting `ser_test` on the witness history's lines. -/
def parse_test (line : String) : Option LogMsg :=
  if line = "Oa\n" then some (.stdout "a")
  else if line = "Eb\n" then some (.stderr "b")
  else none

/-- A workspace fixture for the no-setup-script scenario. -/
def workspace_c9 : Workspace :=
  { id := 7, name := some "demo", branch := "main",
    agent_working_dir := none, archived := false }

/-- A repo with only a cleanup script. -/
def repo_cleanup_only : Repo :=
  { id := 1, name := "web", path := "/repos/web", setup_script := none,
    cleanup_script := some "make clean", archive_script := none,
    parallel_setup_script := false }

/-- Two repos with archive scripts, for the archive-chain scenario. -/
def repo_arch1 : Repo :=
  { id := 1, name := "a", path := "/r/a", setup_script := none,
    cleanup_script := none, archive_script := some "za.sh",
    parallel_setup_script := false }

def repo_arch2 : Repo :=
  { id := 2, name := "b", path := "/r/b", setup_script := none,
    cleanup_script := none, archive_script := some "zb.sh",
    parallel_setup_script := false }

/-- The context of the first archive-script process of the two-repo chain. -/
def ctx_archive : ExecutionContext :=
  { execution_process :=
      { id := 1, session_id := 1, created_at := 1, status := .completed,
        run_reason := .archiveScript,
        executor_action :=
          (archive_actions_for_repos [repo_arch1, repo_arch2]).getD
            (.mk (.reviewRequest "") none) },
    session := { id := 1, workspace_id := 9 },
    workspace := { id := 9, name := none, branch := "main",
                   agent_working_dir := none, archived := true } }

/-- Fixtures for the session-reset scenario: one workspace with one repo,
one session, three processes (an old completed one, the running target, a
running dev server). -/
def repo_c7 : Repo :=
  { id := 5, name := "r", path := "/r/r", setup_script := none,
    cleanup_script := none, archive_script := none,
    parallel_setup_script := false }

def act_c7 : ExecutorAction := .mk (.reviewRequest "x") none

def proc1_c7 : ExecutionProcess :=
  { id := 1, session_id := 1, created_at := 1, status := .completed,
    run_reason := .codingAgent, executor_action := act_c7 }

def proc2_c7 : ExecutionProcess :=
  { id := 2, session_id := 1, created_at := 2, status := .running,
    run_reason := .codingAgent, executor_action := act_c7 }

def proc3_c7 : ExecutionProcess :=
  { id := 3, session_id := 1, created_at := 3, status := .running,
    run_reason := .devServer, executor_action := act_c7 }

def session_c7 : Session := { id := 1, workspace_id := 8 }

def st_c7 : DbState :=
  { workspaces := [{ id := 8, name := none, branch := "main",
                     agent_working_dir := none, archived := false }],
    sessions := [session_c7],
    processes := [proc1_c7, proc2_c7, proc3_c7],
    repo_states := [{ process_id := 2, repo_id := 5,
                      before_head_commit := some "X", after_head_commit := none }],
    repos := [repo_c7],
    workspace_repos := [(8, 5)] }

/-- The state after resetting session 1 to process 2: only the first
process survives. -/
def st_c7_final : DbState := { st_c7 with processes := [proc1_c7] }

def recs_c7 : List ReconcileCall := [⟨5, "X", ⟨true, true, false, true⟩⟩]

/-- A migration state whose single pair's destination file already exists. -/
def mig_state : MigrationState :=
  { legacy := [{ session_id := 1, execution_id := 2, line := "x" }],
    files := [((1, 2), ["old"])] }

theorem chain_types_mk (t : ExecutorActionType) (o : Option ExecutorAction) :
    (ExecutorAction.mk t o).chain_types = t :: opt_chain_types o := by
  cases o <;> rfl

theorem chain_types_append : ∀ a b : ExecutorAction,
    (a.append_action b).chain_types = a.chain_types ++ b.chain_types
  | .mk t none, b => by
      simp [ExecutorAction.append_action, ExecutorAction.chain_types]
  | .mk t (some n), b => by
      simp [ExecutorAction.append_action, ExecutorAction.chain_types,
        chain_types_append n b]

theorem chain_types_foldl (g : Repo → ExecutorActionType) :
    ∀ (l : List Repo) (root : ExecutorAction),
      (l.foldl (fun acc r => acc.append_action (.mk (g r) none)) root).chain_types =
        root.chain_types ++ l.map g
  | [], root => by simp
  | r :: rest, root => by
      simp only [List.foldl_cons, chain_types_foldl g rest, chain_types_append,
        List.map_cons]
      simp [ExecutorAction.chain_types]

/-- The cleanup chain lists one `CleanupScript` request per repo with a
cleanup script, in repo order. -/
theorem cleanup_actions_chain_types (repos : List Repo) :
    opt_chain_types (cleanup_actions_for_repos repos) =
      (repos.filter fun r => r.cleanup_script.isSome).map cleanup_req_type := by
  unfold cleanup_actions_for_repos
  cases h : repos.filter fun r => r.cleanup_script.isSome with
  | nil => simp [opt_chain_types]
  | cons first rest =>
      simp only [opt_chain_types, chain_types_foldl, List.map_cons]
      simp [ExecutorAction.chain_types, cleanup_req_type]

/-- `build_sequential_setup_chain` written as a right fold. -/
theorem build_sequential_setup_chain_foldr (l : List Repo) (next : ExecutorAction) :
    build_sequential_setup_chain l next =
      l.foldr
        (fun repo chained =>
          match repo.setup_script with
          | some script =>
              ExecutorAction.mk
                (.scriptRequest { script, language := .bash,
                                  context := .setupScript, working_dir := some repo.name })
                (some chained)
          | none => chained)
        next := by
  simp [build_sequential_setup_chain, List.foldl_reverse]

/-- The sequential setup chain prepends one `SetupScript` request per repo
(all repos given have one), in repo order. -/
theorem build_sequential_setup_chain_types :
    ∀ (l : List Repo), (∀ r ∈ l, r.setup_script.isSome) → ∀ next : ExecutorAction,
      (build_sequential_setup_chain l next).chain_types =
        l.map setup_req_type ++ next.chain_types
  | [], _, next => by simp [build_sequential_setup_chain]
  | r :: rest, h, next => by
      have hr : r.setup_script.isSome := h r (by simp)
      have hrest : ∀ x ∈ rest, x.setup_script.isSome := fun x hx => h x (by simp [hx])
      rw [build_sequential_setup_chain_foldr] at *
      simp only [List.foldr_cons]
      cases hs : r.setup_script with
      | none => simp [hs] at hr
      | some script =>
          rw [← build_sequential_setup_chain_foldr]
          simp [ExecutorAction.chain_types,
            build_sequential_setup_chain_types rest hrest next,
            setup_req_type, hs]

/-! ## Claim theorems -/

/-- C2: for every execution context, `should_finalize` returns false when
the run reason is DevServer; false when the run reason is SetupScript and
the action's `next_action` is None; true when the status is Failed or
Killed; and otherwise true iff `next_action` is None — the §4.2 truth table
for every `(run_reason, status, next_action?)` combination. -/
theorem should_finalize_matches_truth_table (ctx : ExecutionContext) :
    should_finalize ctx =
      should_finalize_spec ctx.execution_process.run_reason
        ctx.execution_process.status
        ctx.execution_process.executor_action.next_action.isNone := by
  obtain ⟨p, s, w⟩ := ctx
  obtain ⟨pid, psid, pca, pst, prr, pea⟩ := p
  obtain ⟨typ, nxt⟩ := pea
  cases prr <;> cases pst <;> cases nxt <;>
    simp [should_finalize, should_finalize_spec, ExecutorAction.next_action]

/-- C3: `try_start_next_action` starts nothing when the process's action
has no `next_action`, and otherwise starts the next action with the run
reason of the §4.2 table: Script→Script gives SetupScript,
coding-agent/review→Script gives CleanupScript, and anything→coding-
agent/review gives CodingAgent. -/
theorem try_start_next_action_matches_table (ctx : ExecutionContext) :
    try_start_next_action ctx =
      ctx.execution_process.executor_action.next_action.map fun next =>
        StartCall.mk next
          (next_run_reason_spec ctx.execution_process.executor_action.typ next.typ) := by
  have h : ∀ a b, next_run_reason a b = next_run_reason_spec a b := by
    intro a b
    cases a <;> cases b <;> simp [next_run_reason, next_run_reason_spec]
  unfold try_start_next_action
  cases hn : ctx.execution_process.executor_action.next_action <;> simp [h]

/-- C4: when `start_execution_inner` fails, `start_execution` marks the
process Failed, appends exactly one Stderr log line describing the error,
appends a `JsonPatch` normalized entry of kind `ErrorMessage{SetupRequired}`
at conversation index 2 exactly when the error is `ExecutableNotFound`,
and returns the original error. -/
theorem start_execution_failure_path (err : ContainerErrorM) :
    (start_execution_on_inner_result (.error err)).1 = .error err ∧
    StartExecutionEffect.markProcessFailed ∈ (start_execution_on_inner_result (.error err)).2 ∧
    ((start_execution_on_inner_result (.error err)).2.filterMap fun e =>
        match e with
        | .appendLog (.stderr s) => some s
        | _ => none) =
      ["Failed to start execution: " ++ err.display] ∧
    ((start_execution_on_inner_result (.error err)).2.filterMap fun e =>
        match e with
        | .appendLog (.jsonPatch p) => some p
        | _ => none) =
      (match err with
       | .executorError (.executableNotFound program) =>
          [⟨2, ⟨.errorMessage .setupRequired,
               "The required executable `" ++ program ++ "` is not installed."⟩⟩]
       | _ => []) := by
  obtain (e | m) := err
  · obtain (program | m) := e <;>
      simp [start_execution_on_inner_result, ContainerErrorM.display,
        ExecutorErrorM.display, List.filterMap]
  · simp [start_execution_on_inner_result, ContainerErrorM.display, List.filterMap]

/-- C5: for every message sequence delivered to the drain task, the log
file receives one serialized, newline-terminated line per Stdout/Stderr
item pushed before `Finished`, in push order; `JsonPatch` and `Ready` items
produce no line; and the task stops at the first `Finished` (anything after
it is never processed). -/
theorem drain_raw_logs_file_lines (ser : LogMsg → String) :
    (∀ msgs : List LogMsg,
        drain_file_lines ser msgs =
          ((msgs.takeWhile fun m => !m.is_finished).filter LogMsg.is_raw).map
            fun m => ser m ++ "\n") ∧
    (∀ pre post : List LogMsg,
        drain_raw_logs ser (pre ++ .finished :: post) =
          drain_raw_logs ser (pre ++ [.finished])) := by
  constructor
  · intro msgs
    induction msgs with
    | nil => rfl
    | cons m rest ih =>
        cases m <;>
          simp [drain_file_lines, drain_raw_logs, DrainEffect.file_line,
            LogMsg.is_finished, LogMsg.is_raw, List.filterMap_cons, ih] <;>
          simp [drain_file_lines] at ih <;> exact ih
  · intro pre post
    induction pre with
    | nil => simp [drain_raw_logs]
    | cons m rest ih =>
        cases m <;> simp [drain_raw_logs, ih]

theorem takeWhile_not_finished (msgs : List LogMsg) (hfin : LogMsg.finished ∉ msgs) :
    (msgs ++ [LogMsg.finished]).takeWhile (fun m => !m.is_finished) = msgs := by
  induction msgs with
  | nil => rfl
  | cons m rest ih =>
      have hm : LogMsg.finished ∉ rest := fun h => hfin (List.mem_cons_of_mem _ h)
      have hne : m ≠ .finished := fun h => hfin (by simp [h])
      have hmf : m.is_finished = false := by
        cases m <;> simp_all [LogMsg.is_finished]
      simp [List.takeWhile_cons, hmf, ih hm]

theorem parse_raw_lines (ser : LogMsg → String) (parse : String → Option LogMsg)
    (l : List LogMsg) (hround : ∀ m ∈ l, parse (ser m ++ "\n") = some m) :
    parse_file_lines parse (l.map fun m => ser m ++ "\n") = l := by
  induction l with
  | nil => rfl
  | cons m rest ih =>
      have h1 := hround m (by simp)
      unfold parse_file_lines at *
      simp only [List.map_cons, List.filterMap_cons, h1]
      exact congrArg _ (ih fun x hx => hround x (by simp [hx]))

/-- C6: for a finished execution (history is the pushed messages followed
by the terminal `Finished`), `stream_raw_logs` yields the same sequence
whether served from the live `MsgStore` (history filtered to Stdout,
Stderr, Finished) or from the on-disk file written by the drain task and
parsed back (raw messages followed by a synthetic `Finished`), and in both
cases the stream is the raw messages in push order followed by exactly one
`Finished`. -/
theorem stream_raw_logs_replay_equivalence
    (ser : LogMsg → String) (parse : String → Option LogMsg) (msgs : List LogMsg)
    (hfin : LogMsg.finished ∉ msgs)
    (hround : ∀ m ∈ msgs, m.is_raw = true → parse (ser m ++ "\n") = some m) :
    stream_raw_logs_live (msgs ++ [.finished]) =
      stream_raw_logs_disk
        (parse_file_lines parse (drain_file_lines ser (msgs ++ [.finished]))) ∧
    stream_raw_logs_live (msgs ++ [.finished]) =
      msgs.filter LogMsg.is_raw ++ [.finished] ∧
    (stream_raw_logs_live (msgs ++ [.finished])).count .finished = 1 := by
  have hlive : stream_raw_logs_live (msgs ++ [.finished]) =
      msgs.filter LogMsg.is_raw ++ [.finished] := by
    unfold stream_raw_logs_live
    rw [List.filter_append]
    congr 1
    apply List.filter_congr
    intro m hm
    cases m <;> simp_all [LogMsg.is_raw]
  have hfile : drain_file_lines ser (msgs ++ [.finished]) =
      (msgs.filter LogMsg.is_raw).map fun m => ser m ++ "\n" := by
    rw [(drain_raw_logs_file_lines ser).1, takeWhile_not_finished msgs hfin]
  have hparsed : parse_file_lines parse (drain_file_lines ser (msgs ++ [.finished])) =
      msgs.filter LogMsg.is_raw := by
    rw [hfile]
    refine parse_raw_lines ser parse _ fun m hm => ?_
    have hmem := List.mem_filter.mp hm
    exact hround m hmem.1 hmem.2
  have hnofin : LogMsg.finished ∉ msgs.filter LogMsg.is_raw := by
    intro h
    have := (List.mem_filter.mp h).2
    simp [LogMsg.is_raw] at this
  refine ⟨?_, hlive, ?_⟩
  · rw [hlive, hparsed]
    unfold stream_raw_logs_disk
    congr 1
    symm
    apply List.filter_eq_self.mpr
    intro m hm
    exact (List.mem_filter.mp hm).2
  · rw [hlive]
    simp [List.count_append, List.count_eq_zero.mpr hnofin]

theorem filterMap_congr_mem {α β : Type} (f g : α → Option β) :
    ∀ (l : List α), (∀ x ∈ l, f x = g x) → l.filterMap f = l.filterMap g
  | [], _ => rfl
  | x :: rest, h => by
      simp only [List.filterMap_cons, h x (by simp)]
      cases g x <;>
        simp [filterMap_congr_mem f g rest fun y hy => h y (by simp [hy])]

/-- C1: `start_workspace` builds setup per the partition of repos into those
with a setup script.  If every such repo has `parallel_setup_script`, one
process is started per setup repo that starts successfully — each a single
`ScriptRequest` with no `next_action` — plus one separate coding-agent
process which starts regardless of the setup failures; otherwise exactly
one process is started, whose action is the right-leaning chain
setup(repo₀) → setup(repo₁) → … → coding agent → cleanup chain, with the
setup nodes in workspace repo order. -/
theorem start_workspace_setup_partition (workspace : Workspace) (repos : List Repo)
    (cfg prompt : String) (setupOk : Repo → Bool) :
    let rws := repos.filter fun r => r.setup_script.isSome
    let coding : ExecutorAction := .mk
      (.codingAgentInitialRequest
        { prompt, executor_config := cfg,
          working_dir := Option.filter (fun d => d ≠ "") workspace.agent_working_dir })
      (cleanup_actions_for_repos repos)
    if rws.all fun r => r.parallel_setup_script then
      start_workspace_started workspace repos cfg prompt setupOk =
        (rws.filterMap fun r =>
          if setupOk r then some ⟨.mk (setup_req_type r) none, .setupScript⟩ else none)
          ++ [⟨coding, .codingAgent⟩]
    else
      start_workspace_started workspace repos cfg prompt setupOk =
        [⟨build_sequential_setup_chain rws coding, .setupScript⟩] ∧
      (build_sequential_setup_chain rws coding).chain_types =
        rws.map setup_req_type
          ++ [ExecutorActionType.codingAgentInitialRequest
                { prompt, executor_config := cfg,
                  working_dir := Option.filter (fun d => d ≠ "") workspace.agent_working_dir }]
          ++ (repos.filter fun r => r.cleanup_script.isSome).map cleanup_req_type := by
  intro rws coding
  have hmem : ∀ r ∈ rws, r.setup_script.isSome := fun r hr =>
    (List.mem_filter.mp hr).2
  by_cases hpar : rws.all (fun r => r.parallel_setup_script) = true
  · simp only [hpar, if_true]
    unfold start_workspace_started
    simp only [hpar, if_true]
    congr 1
    apply filterMap_congr_mem
    intro r hr
    have hs := hmem r hr
    cases h : r.setup_script with
    | none => simp [h] at hs
    | some script =>
        by_cases hok : setupOk r = true <;>
          simp [hok, setup_action_for_repo, h, setup_req_type]
  · have hparf : (rws.all fun r => r.parallel_setup_script) = false := by
      simpa using hpar
    simp only [hparf, Bool.false_eq_true, if_false]
    constructor
    · unfold start_workspace_started
      simp only [hparf, Bool.false_eq_true, if_false]
    · rw [build_sequential_setup_chain_types rws hmem coding,
        chain_types_mk, cleanup_actions_chain_types]
      simp

/-- C9: when no repo in the workspace has a setup script, the all-parallel
predicate is vacuously true and `start_workspace` takes the parallel
branch: no setup processes, exactly one execution started with run reason
CodingAgent, whose action is the coding-agent request with the cleanup
chain (present whenever any repo has a cleanup script) as its
`next_action`. -/
theorem start_workspace_without_setup_scripts (workspace : Workspace) (repos : List Repo)
    (cfg prompt : String) (setupOk : Repo → Bool)
    (h : ∀ r ∈ repos, r.setup_script = none) :
    start_workspace_started workspace repos cfg prompt setupOk =
      [⟨.mk (.codingAgentInitialRequest
            { prompt, executor_config := cfg,
              working_dir := Option.filter (fun d => d ≠ "") workspace.agent_working_dir })
          (cleanup_actions_for_repos repos), .codingAgent⟩] ∧
    ((repos.any fun r => r.cleanup_script.isSome) = true →
      (cleanup_actions_for_repos repos).isSome = true) := by
  have hempty : (repos.filter fun r => r.setup_script.isSome) = [] := by
    rw [List.filter_eq_nil_iff]
    intro r hr
    simp [h r hr]
  constructor
  · unfold start_workspace_started
    simp [hempty]
  · intro hany
    unfold cleanup_actions_for_repos
    obtain ⟨r, hr, hc⟩ := List.any_eq_true.mp hany
    cases hfc : repos.filter fun x => x.cleanup_script.isSome with
    | nil =>
        have hmem : r ∈ repos.filter fun x => x.cleanup_script.isSome :=
          List.mem_filter.mpr ⟨hr, hc⟩
        rw [hfc] at hmem
        exact absurd hmem (List.not_mem_nil r)
    | cons first rest => simp [hfc]

/-- C10: in an archive chain over two repos that both have archive scripts,
the continuation after the first script is started by
`try_start_next_action` with run reason SetupScript (the Script→Script rule
ignores the request's `ArchiveScript` context), and since that run reason
is not ArchiveScript, `start_execution` sets the workspace's `archived`
flag to false — reversing the `archived = true` that `archive_workspace`
had just written. -/
theorem archive_chain_second_script_clears_archived (r1 r2 : Repo) (s1 s2 : String)
    (ctx : ExecutionContext)
    (h1 : r1.archive_script = some s1) (h2 : r2.archive_script = some s2)
    (hctx : some ctx.execution_process.executor_action = archive_actions_for_repos [r1, r2]) :
    try_start_next_action ctx =
      some ⟨.mk (.scriptRequest { script := s2, language := .bash,
                                  context := .archiveScript,
                                  working_dir := some r2.name }) none,
            .setupScript⟩ ∧
    start_execution_archived_after .setupScript archive_workspace_archived_flag = false := by
  have haction : ctx.execution_process.executor_action =
      .mk (.scriptRequest { script := s1, language := .bash,
                            context := .archiveScript, working_dir := some r1.name })
        (some (.mk (.scriptRequest { script := s2, language := .bash,
                                     context := .archiveScript,
                                     working_dir := some r2.name }) none)) := by
    apply Option.some.inj
    rw [hctx]
    unfold archive_actions_for_repos
    simp [List.filter, h1, h2, ExecutorAction.append_action]
  refine ⟨?_, rfl⟩
  unfold try_start_next_action
  rw [haction]
  rfl

theorem file_lookup_append_of_some (fs : List ((Nat × Nat) × List String))
    (e : (Nat × Nat) × List String) (k : Nat × Nat) (c : List String)
    (h : file_lookup fs k = some c) : file_lookup (fs ++ [e]) k = some c := by
  unfold file_lookup at h ⊢
  rw [List.find?_append]
  cases hf : fs.find? fun x => x.1 = k with
  | none => rw [hf] at h; simp at h
  | some a => rw [hf] at h; exact h

theorem migrate_fold_preserves (lines : (Nat × Nat) → List String) :
    ∀ (pairs : List (Nat × Nat)) (fs : List ((Nat × Nat) × List String))
      (k : Nat × Nat) (c : List String),
      file_lookup fs k = some c →
      file_lookup
        (pairs.foldl (fun fs p =>
          if (file_lookup fs p).isSome then fs
          else if (lines p).isEmpty then fs else fs ++ [(p, lines p)]) fs) k = some c
  | [], _, _, _, h => h
  | p :: rest, fs, k, c, h => by
      simp only [List.foldl_cons]
      apply migrate_fold_preserves lines rest
      by_cases h1 : (file_lookup fs p).isSome
      · rw [if_pos h1]
        exact h
      · rw [if_neg h1]
        by_cases h2 : (lines p).isEmpty
        · rw [if_pos h2]
          exact h
        · rw [if_neg h2]
          exact file_lookup_append_of_some fs (p, lines p) k c h

theorem migrate_of_empty_legacy (s : MigrationState) (h : s.legacy.isEmpty = true) :
    migrate_execution_logs_to_files s = s := by
  unfold migrate_execution_logs_to_files
  rw [if_pos h]

theorem migrate_legacy_empty (s : MigrationState) :
    (migrate_execution_logs_to_files s).legacy.isEmpty = true := by
  unfold migrate_execution_logs_to_files
  by_cases h : s.legacy.isEmpty = true
  · rw [if_pos h]
    exact h
  · rw [if_neg h]
    rfl

/-- C8: `migrate_execution_logs_to_files` is idempotent — a second run after
a completed first run is a no-op, because the first run leaves the legacy
table empty and the migration returns early on an empty legacy table — and
any pair whose destination file already exists is skipped, leaving the
existing file's contents unchanged. -/
theorem migrate_execution_logs_idempotent (s : MigrationState)
    (k : Nat × Nat) (c : List String) :
    migrate_execution_logs_to_files (migrate_execution_logs_to_files s) =
      migrate_execution_logs_to_files s ∧
    (file_lookup s.files k = some c →
      file_lookup (migrate_execution_logs_to_files s).files k = some c) := by
  constructor
  · exact migrate_of_empty_legacy _ (migrate_legacy_empty s)
  · intro h
    unfold migrate_execution_logs_to_files
    by_cases he : s.legacy.isEmpty = true
    · rw [if_pos he]
      exact h
    · rw [if_neg he]
      exact migrate_fold_preserves (migration_lines s.legacy)
        (distinct_pairs s.legacy) s.files k c h

/-- C7: `reset_session_to_process(s, p, true, true)` rejects a process whose
`session_id` differs from `s`; otherwise after it returns Ok (a) the target
and every later process of the session (`created_at ≥` target's) are gone,
(b) every process of the workspace that was Running with a non-DevServer
run reason and survives the deletion is now `Killed`, and (c) the recorded
reconcile calls are exactly, per workspace repo: the target's
`before_head_commit` or, when absent, the previous process's
`after_head_commit` for the same session and repo, and no reconcile when
both are absent. -/
theorem reset_session_to_process_spec (st : DbState) (sid pid : Nat) (dirty : Bool)
    (p : ExecutionProcess) (session : Session)
    (hp : (st.processes.find? fun q => q.id = pid) = some p)
    (hs : (st.sessions.find? fun s2 => s2.id = sid) = some session) :
    (p.session_id ≠ sid →
      reset_session_to_process st sid pid true true dirty =
        .error "Process does not belong to this session") ∧
    (∀ st' recs, reset_session_to_process st sid pid true true dirty = .ok (st', recs) →
      ((∀ q ∈ st'.processes, ¬(q.session_id = sid ∧ p.created_at ≤ q.created_at)) ∧
       (∀ q ∈ st.processes,
          (st.sessions.any fun s2 =>
            s2.id = q.session_id ∧ s2.workspace_id = session.workspace_id) = true →
          q.run_reason ≠ .devServer →
          q.status = .running →
          ¬(q.session_id = sid ∧ p.created_at ≤ q.created_at) →
          { q with status := .killed } ∈ st'.processes) ∧
       recs = (find_repos_for_workspace st session.workspace_id).filterMap fun repo =>
         (match ((st.repo_states.filter fun rs : RepoStateRow => rs.process_id = pid).find?
              fun s2 : RepoStateRow => s2.repo_id = repo.id).bind
              (fun s2 => s2.before_head_commit) with
          | some oid => some oid
          | none => find_prev_after_head_commit st sid p repo.id).map fun oid =>
           ReconcileCall.mk repo.id oid ⟨true, true, dirty, true⟩)) := by
  constructor
  · intro hne
    unfold reset_session_to_process
    simp only [hp]
    rw [if_pos hne]
  · intro st' recs hok
    unfold reset_session_to_process at hok
    simp only [hp] at hok
    by_cases hsid : p.session_id ≠ sid
    · rw [if_pos hsid] at hok
      exact absurd hok (by simp)
    · rw [if_neg hsid] at hok
      simp only [hs] at hok
      cases hw : st.workspaces.find? fun w => w.id = session.workspace_id with
      | none =>
          simp only [hw] at hok
          exact absurd hok (by simp)
      | some w =>
          simp only [hw, Except.ok.injEq, Prod.mk.injEq] at hok
          obtain ⟨hst, hrecs⟩ := hok
          refine ⟨?_, ?_, hrecs.symm⟩
          · intro q hq
            rw [← hst] at hq
            simp only [drop_at_and_after] at hq
            have := (List.mem_filter.mp hq).2
            exact of_decide_eq_true this
          · intro q hq hws hdev hrun hkeep
            rw [← hst]
            simp only [drop_at_and_after]
            apply List.mem_filter.mpr
            constructor
            · simp only [try_stop]
              have hcond : ((st.sessions.any fun s2 =>
                  s2.id = q.session_id ∧ s2.workspace_id = session.workspace_id) = true)
                  ∧ ((false : Bool) = true ∨ q.run_reason ≠ .devServer)
                  ∧ q.status = .running := ⟨hws, Or.inr hdev, hrun⟩
              have hfq : (fun r =>
                  if (st.sessions.any fun s2 =>
                        s2.id = r.session_id ∧ s2.workspace_id = session.workspace_id) = true
                      ∧ ((false : Bool) = true ∨ r.run_reason ≠ .devServer)
                      ∧ r.status = .running
                  then { r with status := ExecutionProcessStatus.killed } else r) q =
                  { q with status := ExecutionProcessStatus.killed } := if_pos hcond
              exact hfq ▸ List.mem_map_of_mem _ hq
            · exact decide_eq_true hkeep

/-! ## Witness theorems -/

theorem stream_raw_logs_replay_equivalence_witness :
    LogMsg.finished ∉ [LogMsg.stdout "a", LogMsg.ready, LogMsg.stderr "b"] ∧
    stream_raw_logs_live ([LogMsg.stdout "a", LogMsg.ready, LogMsg.stderr "b"] ++ [.finished]) =
      stream_raw_logs_disk (parse_file_lines parse_test
        (drain_file_lines ser_test
          ([LogMsg.stdout "a", LogMsg.ready, LogMsg.stderr "b"] ++ [.finished]))) :=
  ⟨by decide, (stream_raw_logs_replay_equivalence ser_test parse_test
      [LogMsg.stdout "a", LogMsg.ready, LogMsg.stderr "b"] (by decide) (by decide)).1⟩

theorem start_workspace_without_setup_scripts_witness :
    (∀ r ∈ [repo_cleanup_only], r.setup_script = none) ∧
    (start_workspace_started workspace_c9 [repo_cleanup_only] "cfg" "hi" (fun _ => true) =
      [⟨.mk (.codingAgentInitialRequest
              { prompt := "hi", executor_config := "cfg",
                working_dir := Option.filter (fun d => d ≠ "") workspace_c9.agent_working_dir })
            (cleanup_actions_for_repos [repo_cleanup_only]), .codingAgent⟩] ∧
     (([repo_cleanup_only].any fun r => r.cleanup_script.isSome) = true →
       (cleanup_actions_for_repos [repo_cleanup_only]).isSome = true)) :=
  ⟨by decide,
   start_workspace_without_setup_scripts workspace_c9 [repo_cleanup_only] "cfg" "hi"
     (fun _ => true) (by decide)⟩

theorem archive_chain_second_script_clears_archived_witness :
    repo_arch1.archive_script = some "za.sh" ∧
    repo_arch2.archive_script = some "zb.sh" ∧
    (try_start_next_action ctx_archive =
      some ⟨.mk (.scriptRequest { script := "zb.sh", language := .bash,
                                  context := .archiveScript,
                                  working_dir := some repo_arch2.name }) none,
            .setupScript⟩ ∧
     start_execution_archived_after .setupScript archive_workspace_archived_flag = false) :=
  ⟨rfl, rfl,
   archive_chain_second_script_clears_archived repo_arch1 repo_arch2 "za.sh" "zb.sh"
     ctx_archive rfl rfl (by decide)⟩

theorem reset_session_to_process_spec_witness :
    ((st_c7.processes.find? fun q => q.id = 2) = some proc2_c7) ∧
    ((st_c7.sessions.find? fun s2 => s2.id = 1) = some session_c7) ∧
    reset_session_to_process st_c7 1 2 true true false = .ok (st_c7_final, recs_c7) ∧
    recs_c7 = (find_repos_for_workspace st_c7 session_c7.workspace_id).filterMap
      (fun repo =>
        (match ((st_c7.repo_states.filter fun rs : RepoStateRow =>
              rs.process_id = 2).find?
              fun s2 : RepoStateRow => s2.repo_id = repo.id).bind
              (fun s2 => s2.before_head_commit) with
         | some oid => some oid
         | none => find_prev_after_head_commit st_c7 1 proc2_c7 repo.id).map fun oid =>
          ReconcileCall.mk repo.id oid ⟨true, true, false, true⟩) := by
  refine ⟨by decide, by decide, by decide, ?_⟩
  exact (((reset_session_to_process_spec st_c7 1 2 false proc2_c7 session_c7
    (by decide) (by decide)).2 st_c7_final recs_c7 (by decide)).2).2

theorem migrate_execution_logs_idempotent_witness :
    file_lookup mig_state.files (1, 2) = some ["old"] ∧
    migrate_execution_logs_to_files (migrate_execution_logs_to_files mig_state) =
      migrate_execution_logs_to_files mig_state ∧
    file_lookup (migrate_execution_logs_to_files mig_state).files (1, 2) = some ["old"] :=
  ⟨by decide, (migrate_execution_logs_idempotent mig_state (1, 2) ["old"]).1,
   (migrate_execution_logs_idempotent mig_state (1, 2) ["old"]).2 (by decide)⟩

end VibeKanban
